import Mathlib

/-!
# christiandoxa/sch : periodic scheduler with a bounded-parallelism task processor

A shallow embedding of

* `internal/domain/task/model/task.go`            (Task)
* `internal/domain/task/repository/taskrepository.go` (InMemoryTaskRepository)
* `internal/domain/task/service/taskservice.go`   (ProcessTasks)
* `tool/tool.go`                                  (GetMaxParallelism)
* `usecase/usecase.go`                            (Execute)
* `scheduler/scheduler.go`                        (RegisterTask and the job wrapper it builds)
* `config/config.go`                              (LoadConfig, getEnv, getEnvAsInt)

Go slices are modelled as views on a backing array: the array is part of the
state of its owner and a slice header only fixes a length.  Goroutines are
modelled by an interleaving transition system driven by an explicit schedule.
The scheduling library (gocron) and godotenv are not part of the repository:
NewJob is a parameter of RegisterTask and the result of godotenv.Load is a
parameter of LoadConfig.
-/

namespace Sch

/-! ## Data model -/

/-- Go error values, represented by their message; the nil error is Option.none. -/
abbrev GoError := String

/-- The struct model.Task. -/
structure Task where
  ID : Int
  Name : String
  Data : String
deriving DecidableEq, Inhabited

/-! ## internal/domain/task/repository -/

/-- The struct InMemoryTaskRepository.  The field tasks is a Go slice: arr is
its backing array (whose length is the capacity of the slice) and len is the
length of the slice, so that the slice denotes the first len cells of arr.
The mutex only makes each method atomic, which is how the methods are
modelled. -/
structure InMemoryTaskRepository where
  arr : List Task
  len : Nat
  wf : len ≤ arr.length

/-- The value of the slice repo.tasks: the first len cells of the backing array. -/
def InMemoryTaskRepository.tasks (repo : InMemoryTaskRepository) : List Task :=
  repo.arr.take repo.len

/-- NewInMemoryTaskRepository: a slice literal of three tasks (length 3, capacity 3). -/
def NewInMemoryTaskRepository : InMemoryTaskRepository :=
  { arr := [ { ID := 1, Name := "Task1", Data := "Data for Task 1" },
             { ID := 2, Name := "Task2", Data := "Data for Task 2" },
             { ID := 3, Name := "Task3", Data := "Data for Task 3" } ],
    len := 3,
    wf := by decide }

/-- A slice handed out to a caller: a header of fixed length over memory owned
by a state of type σ.  The element at an index is read from the state that
is current at the time of the read. -/
structure Batch (σ : Type) where
  len : Nat
  read : σ → Nat → Task

/-- The elements a reader sees when it walks the slice in the state st. -/
def Batch.contents {σ : Type} (b : Batch σ) (st : σ) : List Task :=
  (List.range b.len).map (b.read st)

/-- GetPendingTasks returns repo.tasks itself, that is a slice header with the
current length over the backing array of the repository, and a nil error. -/
def InMemoryTaskRepository.GetPendingTasks (repo : InMemoryTaskRepository) :
    Batch InMemoryTaskRepository × Option GoError :=
  ({ len := repo.len, read := fun r i => r.arr.getD i default }, none)

/-- The loop of MarkTaskProcessed: the index of the first task of the slice
whose ID equals taskID, if any. -/
def rangeFind : List Task → Int → Option Nat
  | [], _ => none
  | t :: ts, taskID => if t.ID = taskID then some 0 else (rangeFind ts taskID).map (· + 1)

/-- The backing array after append(tasks[:i], tasks[i+1:]...) on a slice of
length len: the capacity suffices, so append copies the cells i+1 .. len-1
over the cells i .. len-2 in place; the cells from len-1 on keep their
value. -/
def sliceDelete (arr : List Task) (len i : Nat) : List Task :=
  arr.take i ++ (arr.take len).drop (i + 1) ++ arr.drop (len - 1)

/-- MarkTaskProcessed: remove the first task with the given ID from the slice
(in place), log it, and return nil; return nil as well when no task has
the ID.  The result is the new repository, the log lines and the error. -/
def InMemoryTaskRepository.MarkTaskProcessed (repo : InMemoryTaskRepository) (taskID : Int) :
    InMemoryTaskRepository × List String × Option GoError :=
  match rangeFind repo.tasks taskID with
  | some i =>
    ({ arr := sliceDelete repo.arr repo.len i,
       len := repo.len - 1,
       wf := by
         have h := repo.wf
         simp only [sliceDelete, List.length_append, List.length_take, List.length_drop]
         omega },
     ["Task with ID " ++ toString taskID ++ " marked as processed."], none)
  | none => (repo, [], none)

/-- The interface TaskRepository over a store state σ.  GetPendingTasks may
fail; MarkTaskProcessed returns the new store, its log lines and an error. -/
structure TaskRepository (σ : Type) where
  GetPendingTasks : σ → σ × Except GoError (Batch σ)
  MarkTaskProcessed : σ → Int → σ × List String × Option GoError

/-- InMemoryTaskRepository seen through the interface TaskRepository. -/
def inMemory : TaskRepository InMemoryTaskRepository :=
  { GetPendingTasks := fun repo => (repo, Except.ok repo.GetPendingTasks.1),
    MarkTaskProcessed := fun repo taskID => repo.MarkTaskProcessed taskID }

/-- A sequence of MarkTaskProcessed calls on the in-memory store. -/
def markAll (repo : InMemoryTaskRepository) (ids : List Int) : InMemoryTaskRepository :=
  ids.foldl (fun r taskID => (r.MarkTaskProcessed taskID).1) repo

/-! ## tool -/

/-- GetMaxParallelism: eight times runtime.GOMAXPROCS(0), which is passed in. -/
def GetMaxParallelism (maxProcs : Nat) : Nat := maxProcs * 8

/-! ## internal/domain/task/service : ProcessTasks -/

/-- The state of one ProcessTasks call.

* store: the repository; batch: the slice returned by GetPendingTasks
* next: the index of the next element of range tasks; cur: the task of the
  iteration in progress (read, counted by wg.Add, waiting for a slot)
* sem: the number of values buffered in the channel sem
* launched: the workers started by the go statement that have not logged yet
* running: the workers that logged their task and are at work, before their
  call of MarkTaskProcessed
* marked: the workers past MarkTaskProcessed that still hold their slot, each
  with the error its call returned
* exiting: the workers that released their slot and have not run wg.Done yet
* wg: the WaitGroup counter
* taken, calls: the tasks read by the loop and the ids passed to
  MarkTaskProcessed, in order (history)
* result: none while the call runs, then the returned error value -/
structure RunState (σ : Type) where
  store : σ
  batch : Batch σ
  next : Nat
  cur : Option Task
  sem : Nat
  launched : List Task
  running : List Task
  marked : List (Task × Option GoError)
  exiting : Nat
  wg : Nat
  taken : List Task
  calls : List Int
  log : List String
  result : Option (Option GoError)

/-- The atomic actions of the goroutines of one ProcessTasks call.

* iter: the loop head reads tasks[next] and runs wg.Add(1)
* launch: the send on sem succeeds and the go statement starts the worker
* work k: the k-th launched worker logs the line Processing task and starts
  its simulated work
* mark k: the k-th running worker calls MarkTaskProcessed
* release k: the k-th marked worker logs the error of its call, if any, and
  runs its deferred receive from sem
* done: the deferred wg.Done of a worker that released its slot
* ret: the loop is over, wg.Wait returns and ProcessTasks returns nil -/
inductive Event where
  | iter
  | launch
  | work (k : Nat)
  | mark (k : Nat)
  | release (k : Nat)
  | done
  | ret
deriving DecidableEq

/-- The empty slice, the batch of a call whose fetch failed. -/
def Batch.nil (σ : Type) : Batch σ := { len := 0, read := fun _ _ => default }

/-- The sequential head of ProcessTasks: fetch the pending tasks; on an error log it
and return it, otherwise log the count and enter the dispatch loop. -/
def ProcessTasks.start {σ : Type} (repo : TaskRepository σ) (s0 : σ) : RunState σ :=
  match repo.GetPendingTasks s0 with
  | (st, Except.error err) =>
    { store := st, batch := Batch.nil σ, next := 0, cur := none, sem := 0, launched := [],
      running := [],
      marked := [], exiting := 0, wg := 0, taken := [], calls := [],
      log := ["Error fetching tasks: " ++ err], result := some (some err) }
  | (st, Except.ok tasks) =>
    { store := st, batch := tasks, next := 0, cur := none, sem := 0, launched := [],
      running := [],
      marked := [], exiting := 0, wg := 0, taken := [], calls := [],
      log := ["Found " ++ toString tasks.len ++ " tasks to process."], result := none }

/-- One atomic action of the dispatch loop or of a worker, with maxWorkers the
capacity of the channel sem; none when the action is not enabled (the loop is
blocked on the send, the index names no worker, the call has returned).
The action done needs a positive WaitGroup counter, as wg.Done does; the
invariant Inv shows that the counter is positive whenever a worker is exiting. -/
def ProcessTasks.step {σ : Type} (repo : TaskRepository σ) (maxWorkers : Nat) (s : RunState σ) :
    Event → Option (RunState σ)
  | Event.iter =>
    if s.result.isNone ∧ s.cur.isNone ∧ s.next < s.batch.len then
      some { s with
        next := s.next + 1,
        cur := some (s.batch.read s.store s.next),
        wg := s.wg + 1,
        taken := s.taken ++ [s.batch.read s.store s.next] }
    else none
  | Event.launch =>
    match s.cur with
    | some t =>
      if s.result.isNone ∧ s.sem < maxWorkers then
        some { s with cur := none, sem := s.sem + 1, launched := s.launched ++ [t] }
      else none
    | none => none
  | Event.work k =>
    match s.launched[k]? with
    | some t =>
      some { s with
        launched := s.launched.eraseIdx k,
        running := s.running ++ [t],
        log := s.log ++ ["Processing task ID: " ++ toString t.ID ++ ", Name: " ++ t.Name] }
    | none => none
  | Event.mark k =>
    match s.running[k]? with
    | some t =>
      some { s with
        store := (repo.MarkTaskProcessed s.store t.ID).1,
        running := s.running.eraseIdx k,
        marked := s.marked ++ [(t, (repo.MarkTaskProcessed s.store t.ID).2.2)],
        calls := s.calls ++ [t.ID],
        log := s.log ++ (repo.MarkTaskProcessed s.store t.ID).2.1 }
    | none => none
  | Event.release k =>
    match s.marked[k]? with
    | some w =>
      if 0 < s.sem then
        some { s with
          marked := s.marked.eraseIdx k,
          sem := s.sem - 1,
          exiting := s.exiting + 1,
          log := s.log
            ++ (match w.2 with
                | some err =>
                  ["Error marking task " ++ toString w.1.ID ++ " as processed: " ++ err]
                | none => []) }
      else none
    | none => none
  | Event.done =>
    if 0 < s.exiting ∧ 0 < s.wg then
      some { s with exiting := s.exiting - 1, wg := s.wg - 1 }
    else none
  | Event.ret =>
    if s.result.isNone ∧ s.cur.isNone ∧ s.batch.len ≤ s.next ∧ s.wg = 0 then
      some { s with log := s.log ++ ["All tasks processed."], result := some none }
    else none

/-- Run a schedule, a sequence of actions, from a state; none when some
action of the schedule is not enabled where it stands. -/
def ProcessTasks.exec {σ : Type} (repo : TaskRepository σ) (maxWorkers : Nat) :
    RunState σ → List Event → Option (RunState σ)
  | s, [] => some s
  | s, e :: es =>
    match ProcessTasks.step repo maxWorkers s e with
    | some s1 => ProcessTasks.exec repo maxWorkers s1 es
    | none => none

/-- ProcessTasks under a schedule, on a machine with GOMAXPROCS = maxProcs: the
final state when the schedule runs the call up to its return, else none. -/
def ProcessTasks {σ : Type} (repo : TaskRepository σ) (maxProcs : Nat) (s0 : σ)
    (sched : List Event) : Option (RunState σ) :=
  match ProcessTasks.exec repo (GetMaxParallelism maxProcs) (ProcessTasks.start repo s0) sched with
  | some s => if s.result.isSome then some s else none
  | none => none

/-- The number of actions a state is away from the return of the call. -/
def ProcessTasks.fuel {σ : Type} (s : RunState σ) : Nat :=
  6 * (s.batch.len - s.next) + (if s.cur.isSome then 5 else 0) + 4 * s.launched.length
    + 3 * s.running.length
    + 2 * s.marked.length + s.exiting + (if s.result.isNone then 1 else 0)

/-! ## usecase -/

/-- TaskUseCaseImpl.Execute: log the start, call ProcessTasks, log its error if
any, log the duration (its rendering is passed in).  The result is the store
and the log when ProcessTasks returned; Execute has no result value. -/
def Execute {σ : Type} (repo : TaskRepository σ) (maxProcs : Nat) (s0 : σ)
    (sched : List Event) (duration : String) : Option (σ × List String) :=
  match ProcessTasks repo maxProcs s0 sched with
  | some s =>
    some (s.store,
      ["Task UseCase Execution Started"] ++ s.log
        ++ (match s.result with
            | some (some err) => ["Error executing task use case: " ++ err]
            | _ => [])
        ++ ["Task UseCase Execution Completed in " ++ duration])
  | none => none

/-! ## scheduler -/

/-- How a call of a Go function ends: it returns, or it panics with a value,
represented by its rendering under the verb %v.  The value is the one that
recover hands back, which is not nil for a panic (a panic with a nil value
reaches recover as a runtime.PanicNilError). -/
inductive Completion where
  | returned
  | panicked (r : String)
deriving DecidableEq

/-- What one call of a function did: the lines it logged and how it ended. -/
structure Run where
  log : List String
  outcome : Completion

/-- The type TaskFunc; the context argument is context.Background(). -/
abbrev TaskFunc := Unit → Run

/-- The builtin recover, called in a deferred function: the panic value when the
function is panicking, nil otherwise. -/
def recover : Completion → Option String
  | Completion.returned => none
  | Completion.panicked r => some r

/-- The function that RegisterTask wraps around the task and hands to gocron.NewTask:
log the start, run the task and log the completion; the deferred function runs
when the body ends, by return or by panic, and when recover is not nil it logs
the panic, which stops there. -/
def RegisterTask.job (name : String) (task : TaskFunc) : Run :=
  let body : Run :=
    match (task ()).outcome with
    | Completion.returned =>
      { log := ["Task [" ++ name ++ "] started"] ++ (task ()).log
                 ++ ["Task [" ++ name ++ "] completed"],
        outcome := Completion.returned }
    | Completion.panicked r =>
      { log := ["Task [" ++ name ++ "] started"] ++ (task ()).log,
        outcome := Completion.panicked r }
  match recover body.outcome with
  | some r =>
    { log := body.log ++ ["Task [" ++ name ++ "] encountered panic: " ++ r],
      outcome := Completion.returned }
  | none => body

/-- The part of the scheduling library that RegisterTask uses, over a state κ of the
library: NewJob with a DurationJob of the given interval (in nanoseconds) and
the given function, in singleton mode.  It returns the new state of the
library and an error. -/
structure Cron (κ : Type) where
  NewJob : κ → Int → (Unit → Run) → κ × Option GoError

/-- RegisterTask: hand the interval and the wrapped task to NewJob of the library
and log the error when NewJob returns one.  The result is the state of the
library and the lines logged. -/
def RegisterTask {κ : Type} (cron : Cron κ) (s : κ) (name : String) (interval : Int)
    (task : TaskFunc) : κ × List String :=
  match cron.NewJob s interval (fun _ => RegisterTask.job name task) with
  | (s1, some err) => (s1, ["Failed to register task [" ++ name ++ "]: " ++ err])
  | (s1, none) => (s1, [])

/-! ## config -/

/-- The struct SchedulerConfig; Interval is a time.Duration, a signed 64-bit count of
nanoseconds. -/
structure SchedulerConfig where
  EngineName : String
  Interval : Int

/-- The struct DatabaseConfig. -/
structure DatabaseConfig where
  DSN : String

/-- The struct Config. -/
structure Config where
  Scheduler : SchedulerConfig
  DB : DatabaseConfig

/-- The constant time.Second, in nanoseconds. -/
def Second : Int := 1000000000

/-- Signed 64-bit wrap-around, the result of int64 arithmetic. -/
def wrap64 (x : Int) : Int := (x + 2 ^ 63) % 2 ^ 64 - 2 ^ 63

/-- The digit loop of strconv.Atoi: the decimal value of a string of ASCII
digits, none at the first other byte. -/
def parseDigits : List Char → Nat → Option Nat
  | [], acc => some acc
  | c :: cs, acc =>
    if c.isDigit then parseDigits cs (acc * 10 + (c.toNat - 48)) else none

/-- The library function strconv.Atoi on a 64-bit platform: an optional sign, then
one or more decimal digits, with a value in the range of int; none stands for
a non-nil error (syntax or range). -/
def Atoi (s : String) : Option Int :=
  let body : Bool × List Char :=
    match s.toList with
    | '-' :: cs => (true, cs)
    | '+' :: cs => (false, cs)
    | cs => (false, cs)
  if body.2.isEmpty then none
  else
    match parseDigits body.2 0 with
    | none => none
    | some n =>
      let v : Int := if body.1 then -(n : Int) else (n : Int)
      if -(2 ^ 63) ≤ v ∧ v < 2 ^ 63 then some v else none

/-- getEnv: the value of the variable, or the default (logged) when it is empty or
unset; env is os.Getenv. -/
def getEnv (env : String → String) (key defaultValue : String) : String × List String :=
  if env key ≠ "" then (env key, [])
  else
    (defaultValue,
      ["Environment variable " ++ key ++ " not set, using default: " ++ defaultValue])

/-- getEnvAsInt: the integer value of the variable when it is set and strconv.Atoi
accepts it, else the default (logged). -/
def getEnvAsInt (env : String → String) (key : String) (defaultValue : Int) :
    Int × List String :=
  match (if env key ≠ "" then Atoi (env key) else none) with
  | some i => (i, [])
  | none =>
    (defaultValue,
      ["Environment variable " ++ key ++ " not set properly, using default: "
        ++ toString defaultValue])

/-- The name of the variable that holds the interval. -/
def intervalKey : String := "SCHEDULER_INTERVAL_SECONDS"

/-- LoadConfig: dotenvErr is the result of godotenv.Load and env the environment
after it.  On an error the global AppConfig is returned untouched with the
error; otherwise its fields are filled in and the error is nil. -/
def LoadConfig (dotenvErr : Option GoError) (env : String → String) (AppConfig : Config) :
    Config × Option GoError :=
  match dotenvErr with
  | some err => (AppConfig, some err)
  | none =>
    ({ Scheduler :=
         { EngineName := (getEnv env "SCHEDULER_ENGINE_NAME" "MyScheduler").1,
           Interval := wrap64 ((getEnvAsInt env intervalKey 10).1 * Second) },
       DB := { DSN := (getEnv env "DATABASE_DSN" "user:pass@tcp(localhost:3306)/dbname").1 } },
     none)

/-! ## Invariants of the dispatch loop -/

/-- The semaphore invariant: the values buffered in sem are the slots of the workers
that were launched and have not yet run their deferred release (launched,
running or marked), and they never exceed the capacity. -/
structure ProcessTasks.SemInv {σ : Type} (maxWorkers : Nat) (s : RunState σ) : Prop where
  sem_eq : s.sem = s.launched.length + s.running.length + s.marked.length
  sem_le : s.sem ≤ maxWorkers

/-- The bookkeeping invariant of a call whose fetch returned the batch b: the loop
index, the WaitGroup counter and the history agree with the workers in
flight, and once the call has returned nothing is in flight. -/
structure ProcessTasks.Inv {σ : Type} (b : Batch σ) (s : RunState σ) : Prop where
  batch_eq : s.batch = b
  next_le : s.next ≤ b.len
  wg_eq : s.wg
    = (if s.cur.isSome then 1 else 0) + s.launched.length + s.running.length
        + s.marked.length + s.exiting
  taken_len : s.taken.length = s.next
  taken_read : ∀ k, k < s.taken.length → ∃ st, s.taken[k]? = some (b.read st k)
  calls_perm : (s.taken.map Task.ID).Perm
    (s.calls ++ s.running.map Task.ID ++ s.launched.map Task.ID
      ++ s.cur.toList.map Task.ID)
  result_ok : s.result = none
    ∨ (s.result = some none ∧ s.cur = none ∧ s.next = b.len ∧ s.wg = 0)

/-! ## Concrete inputs -/

/-- An environment in which only the interval variable is set, to v. -/
def envWith (v : String) : String → String :=
  fun key => if key = intervalKey then v else ""

/-- The zero value of Config, the initial AppConfig. -/
def zeroConfig : Config :=
  { Scheduler := { EngineName := "", Interval := 0 }, DB := { DSN := "" } }

/-- A schedule repeated n times. -/
def times : Nat → List Event → List Event
  | 0, _ => []
  | n + 1, es => es ++ times n es

/-- A repository over a list of pending tasks whose GetPendingTasks hands out a copy
of the list and whose MarkTaskProcessed fails for the ids in failing. -/
def failingRepo (failing : List Int) : TaskRepository (List Task) :=
  { GetPendingTasks := fun ts =>
      (ts, Except.ok { len := ts.length, read := fun _ i => ts.getD i default }),
    MarkTaskProcessed := fun ts taskID =>
      if taskID ∈ failing then (ts, [], some "store unavailable")
      else (ts.filter (fun t => t.ID ≠ taskID), [], none) }

/-- A repository whose GetPendingTasks fails with the error err. -/
def brokenRepo (err : GoError) : TaskRepository Unit :=
  { GetPendingTasks := fun _ => ((), Except.error err),
    MarkTaskProcessed := fun _ _ => ((), [], none) }

/-- A schedule on three tasks in which every worker is launched and logs its task
before any of them reaches MarkTaskProcessed. -/
def lateFinish : List Event :=
  times 3 [Event.iter, Event.launch] ++ times 3 [Event.work 0]
    ++ times 3 [Event.mark 0, Event.release 0, Event.done] ++ [Event.ret]

/-- A schedule on three tasks in which the first worker ends before the loop reads
the second element of the batch. -/
def earlyFinish : List Event :=
  [Event.iter, Event.launch, Event.work 0, Event.mark 0, Event.release 0, Event.done]
    ++ times 2 [Event.iter, Event.launch] ++ times 2 [Event.work 0]
    ++ times 2 [Event.mark 0, Event.release 0, Event.done] ++ [Event.ret]

/-- A store of eleven tasks with the ids 1 to 11. -/
def elevenStore : InMemoryTaskRepository :=
  { arr := (List.range 11).map (fun i => { ID := (i : Int) + 1, Name := "Task", Data := "" }),
    len := 11,
    wf := by decide }

/-- A schedule on eleven tasks and eight slots in which the loop always runs as far as
it can and a worker ends only while the loop waits for a slot: eight launches,
then three times the oldest worker ends and the loop goes on, then the
remaining eight workers end. -/
def blockedLoop : List Event :=
  times 8 [Event.iter, Event.launch] ++ [Event.iter] ++ times 8 [Event.work 0]
    ++ times 2
        [Event.mark 0, Event.release 0, Event.done, Event.launch, Event.iter, Event.work 0]
    ++ [Event.mark 0, Event.release 0, Event.done, Event.launch, Event.work 0]
    ++ times 8 [Event.mark 0, Event.release 0, Event.done] ++ [Event.ret]

/-- A scheduling library, with the intervals of its jobs as state, that refuses a
DurationJob whose interval is not positive and registers every other one. -/
def refusingCron : Cron (List Int) :=
  { NewJob := fun jobs interval _ =>
      if interval ≤ 0 then (jobs, some "DurationJob: time interval must be greater than 0")
      else (jobs ++ [interval], none) }

/-- A task function that returns at once. -/
def idleTask : TaskFunc :=
  fun _ => { log := [], outcome := Completion.returned }

/-- A task function that logs one line and panics with the value boom. -/
def panickingTask : TaskFunc :=
  fun _ => { log := ["working"], outcome := Completion.panicked "boom" }

/-! ## Lemmas on the in-memory store -/

theorem rangeFind_none {ts : List Task} {taskID : Int} (h : rangeFind ts taskID = none) :
    ∀ t ∈ ts, t.ID ≠ taskID := by
  induction ts with
  | nil => simp
  | cons a ts ih =>
    unfold rangeFind at h
    split at h
    · simp at h
    · rename_i hne
      simp only [Option.map_eq_none'] at h
      intro t ht
      rcases List.mem_cons.mp ht with rfl | ht
      · exact hne
      · exact ih h t ht

theorem rangeFind_of_forall_ne {ts : List Task} {taskID : Int} (h : ∀ t ∈ ts, t.ID ≠ taskID) :
    rangeFind ts taskID = none := by
  induction ts with
  | nil => rfl
  | cons a ts ih =>
    unfold rangeFind
    have ha : a.ID ≠ taskID := h a (List.mem_cons_self _ _)
    have ih1 := ih (fun t ht => h t (List.mem_cons_of_mem _ ht))
    simp [ha, ih1]

theorem rangeFind_some_lt {ts : List Task} {taskID : Int} {i : Nat}
    (h : rangeFind ts taskID = some i) : i < ts.length := by
  induction ts generalizing i with
  | nil => simp [rangeFind] at h
  | cons a ts ih =>
    unfold rangeFind at h
    split at h
    · simp at h; subst h; simp
    · simp only [Option.map_eq_some'] at h
      obtain ⟨j, hj, rfl⟩ := h
      have := ih hj
      simp; omega

theorem rangeFind_some_erase {ts : List Task} {taskID : Int} {i : Nat}
    (h : rangeFind ts taskID = some i) (hd : (ts.map Task.ID).Nodup) :
    ts.eraseIdx i = ts.filter (fun t => t.ID ≠ taskID) := by
  induction ts generalizing i with
  | nil => simp [rangeFind] at h
  | cons a ts ih =>
    simp only [List.map_cons, List.nodup_cons] at hd
    unfold rangeFind at h
    split at h
    · rename_i heq
      simp at h; subst h
      have hall : ∀ t ∈ ts, t.ID ≠ taskID := by
        intro t ht hc
        apply hd.1
        rw [heq, ← hc]
        exact List.mem_map_of_mem _ ht
      simp only [List.eraseIdx_zero, List.tail_cons]
      rw [List.filter_cons_of_neg (by simpa using heq)]
      symm
      rw [List.filter_eq_self]
      intro t ht
      simpa using hall t ht
    · rename_i hne
      simp only [Option.map_eq_some'] at h
      obtain ⟨j, hj, rfl⟩ := h
      rw [List.eraseIdx_cons_succ, ih hj hd.2, List.filter_cons_of_pos (by simpa using hne)]

theorem tasks_sliceDelete (arr : List Task) (len i : Nat) (hlen : len ≤ arr.length) (hi : i < len) :
    (sliceDelete arr len i).take (len - 1) = (arr.take len).eraseIdx i := by
  have h1 : (arr.take i ++ (arr.take len).drop (i + 1)).length = len - 1 := by
    simp only [List.length_append, List.length_take, List.length_drop]
    omega
  unfold sliceDelete
  rw [List.take_left' h1, List.eraseIdx_eq_take_drop_succ, List.take_take]
  congr 2
  omega

theorem tasks_MarkTaskProcessed_some (repo : InMemoryTaskRepository) (taskID : Int) (i : Nat)
    (h : rangeFind repo.tasks taskID = some i) :
    (repo.MarkTaskProcessed taskID).1.tasks = repo.tasks.eraseIdx i := by
  have hi := rangeFind_some_lt h
  have hlen : repo.tasks.length = repo.len := by
    simp [InMemoryTaskRepository.tasks, repo.wf]
  unfold InMemoryTaskRepository.MarkTaskProcessed
  rw [h]
  simp only [InMemoryTaskRepository.tasks]
  exact tasks_sliceDelete repo.arr repo.len i repo.wf (by omega)

theorem MarkTaskProcessed_none (repo : InMemoryTaskRepository) (taskID : Int)
    (h : rangeFind repo.tasks taskID = none) :
    repo.MarkTaskProcessed taskID = (repo, [], none) := by
  unfold InMemoryTaskRepository.MarkTaskProcessed
  rw [h]

theorem MarkTaskProcessed_err (repo : InMemoryTaskRepository) (taskID : Int) :
    (repo.MarkTaskProcessed taskID).2.2 = none := by
  unfold InMemoryTaskRepository.MarkTaskProcessed
  split <;> rfl

theorem tasks_MarkTaskProcessed_sublist (repo : InMemoryTaskRepository) (taskID : Int) :
    ((repo.MarkTaskProcessed taskID).1.tasks).Sublist repo.tasks := by
  cases h : rangeFind repo.tasks taskID with
  | none => rw [MarkTaskProcessed_none repo taskID h]
  | some i =>
    rw [tasks_MarkTaskProcessed_some repo taskID i h]
    exact List.eraseIdx_sublist _ _

theorem tasks_markAll_sublist (ids : List Int) (repo : InMemoryTaskRepository) :
    ((markAll repo ids).tasks).Sublist repo.tasks := by
  induction ids generalizing repo with
  | nil => exact List.Sublist.refl _
  | cons a ids ih =>
    simp only [markAll, List.foldl_cons]
    exact (ih _).trans (tasks_MarkTaskProcessed_sublist repo a)

theorem contents_GetPendingTasks (repo : InMemoryTaskRepository) :
    repo.GetPendingTasks.1.contents repo = repo.tasks := by
  have hwf := repo.wf
  apply List.ext_getElem
  · simp [Batch.contents, InMemoryTaskRepository.GetPendingTasks, InMemoryTaskRepository.tasks, hwf]
  · intro n h1 h2
    simp only [Batch.contents, InMemoryTaskRepository.GetPendingTasks, InMemoryTaskRepository.tasks,
      List.getElem_map, List.getElem_range, List.getElem_take]
    simp only [Batch.contents, InMemoryTaskRepository.GetPendingTasks, List.length_map,
      List.length_range] at h1
    rw [List.getD_eq_getElem _ _ (by omega)]

/-! ## The in-memory store: claims -/

/-- C6 (what the code does): the slice returned by GetPendingTasks shares its
backing array with the store.  On the initial store the batch reads 1, 2, 3;
after MarkTaskProcessed(1) the same batch, whose length is still 3, reads
2, 3, 3, while the store holds 2, 3: the batch is not a snapshot. -/
theorem GetPendingTasks_batch_aliases_store :
    (NewInMemoryTaskRepository.GetPendingTasks.1.contents NewInMemoryTaskRepository).map Task.ID
        = [1, 2, 3]
      ∧ NewInMemoryTaskRepository.GetPendingTasks.1.len = 3
      ∧ (NewInMemoryTaskRepository.GetPendingTasks.1.contents
          (NewInMemoryTaskRepository.MarkTaskProcessed 1).1).map Task.ID = [2, 3, 3]
      ∧ ((NewInMemoryTaskRepository.MarkTaskProcessed 1).1.tasks).map Task.ID = [2, 3] := by
  decide

/-- C7: on a store whose pending tasks have pairwise distinct ids,
MarkTaskProcessed(id) returns nil, the next GetPendingTasks returns (with a nil
error) the previous pending list without the task of that id, the other tasks
in their order, and after any further MarkTaskProcessed calls GetPendingTasks
returns no task of that id. -/
theorem MarkTaskProcessed_removes_task (repo : InMemoryTaskRepository) (taskID : Int)
    (hd : ((repo.GetPendingTasks.1.contents repo).map Task.ID).Nodup) :
    (repo.MarkTaskProcessed taskID).2.2 = none
      ∧ (repo.MarkTaskProcessed taskID).1.GetPendingTasks.2 = none
      ∧ (repo.MarkTaskProcessed taskID).1.GetPendingTasks.1.contents
            (repo.MarkTaskProcessed taskID).1
          = (repo.GetPendingTasks.1.contents repo).filter (fun t => t.ID ≠ taskID)
      ∧ ∀ (ids : List Int),
          ∀ t ∈ (markAll (repo.MarkTaskProcessed taskID).1 ids).GetPendingTasks.1.contents
                  (markAll (repo.MarkTaskProcessed taskID).1 ids),
            t.ID ≠ taskID := by
  rw [contents_GetPendingTasks] at hd
  have key : (repo.MarkTaskProcessed taskID).1.tasks
      = repo.tasks.filter (fun t => t.ID ≠ taskID) := by
    cases h : rangeFind repo.tasks taskID with
    | none =>
      rw [MarkTaskProcessed_none repo taskID h]
      symm
      rw [List.filter_eq_self]
      intro t ht
      simpa using rangeFind_none h t ht
    | some i =>
      rw [tasks_MarkTaskProcessed_some repo taskID i h]
      exact rangeFind_some_erase h hd
  refine ⟨MarkTaskProcessed_err repo taskID, rfl, ?_, ?_⟩
  · rw [contents_GetPendingTasks, contents_GetPendingTasks]
    exact key
  · intro ids t ht
    rw [contents_GetPendingTasks] at ht
    have h1 := (tasks_markAll_sublist ids (repo.MarkTaskProcessed taskID).1).subset ht
    rw [key] at h1
    simpa using (List.mem_filter.mp h1).2

/-- C7 at the initial store and id 2. -/
theorem MarkTaskProcessed_removes_task_witness :
    ((NewInMemoryTaskRepository.GetPendingTasks.1.contents NewInMemoryTaskRepository).map
        Task.ID).Nodup
      ∧ (NewInMemoryTaskRepository.MarkTaskProcessed 2).1.GetPendingTasks.1.contents
            (NewInMemoryTaskRepository.MarkTaskProcessed 2).1
          = (NewInMemoryTaskRepository.GetPendingTasks.1.contents
              NewInMemoryTaskRepository).filter (fun t => t.ID ≠ 2) :=
  ⟨by decide, (MarkTaskProcessed_removes_task NewInMemoryTaskRepository 2 (by decide)).2.2.1⟩

/-- C9: when no pending task carries the id, MarkTaskProcessed(id) returns nil,
leaves the store as it was, and GetPendingTasks returns the same pending
list as before. -/
theorem MarkTaskProcessed_unknown_id (repo : InMemoryTaskRepository) (taskID : Int)
    (h : ∀ t ∈ repo.GetPendingTasks.1.contents repo, t.ID ≠ taskID) :
    (repo.MarkTaskProcessed taskID).2.2 = none
      ∧ (repo.MarkTaskProcessed taskID).1 = repo
      ∧ (repo.MarkTaskProcessed taskID).1.GetPendingTasks.1.contents
            (repo.MarkTaskProcessed taskID).1
          = repo.GetPendingTasks.1.contents repo := by
  rw [contents_GetPendingTasks] at h
  rw [MarkTaskProcessed_none repo taskID (rangeFind_of_forall_ne h)]
  exact ⟨rfl, rfl, rfl⟩

/-- C9 at the initial store and the unknown id 7. -/
theorem MarkTaskProcessed_unknown_id_witness :
    (∀ t ∈ NewInMemoryTaskRepository.GetPendingTasks.1.contents NewInMemoryTaskRepository,
        t.ID ≠ 7)
      ∧ (NewInMemoryTaskRepository.MarkTaskProcessed 7).1 = NewInMemoryTaskRepository :=
  ⟨by decide, (MarkTaskProcessed_unknown_id NewInMemoryTaskRepository 7 (by decide)).2.1⟩

/-! ## The in-memory store: idempotence -/

theorem rangeFind_some_erase_once {ts : List Task} {taskID : Int} {i : Nat}
    (h : rangeFind ts taskID = some i) (hc : (ts.map Task.ID).count taskID ≤ 1) :
    ∀ t ∈ ts.eraseIdx i, t.ID ≠ taskID := by
  induction ts generalizing i with
  | nil => simp [rangeFind] at h
  | cons a ts ih =>
    unfold rangeFind at h
    simp only [List.map_cons, List.count_cons] at hc
    split at h
    · rename_i heq
      simp at h; subst h
      have h0 : (ts.map Task.ID).count taskID = 0 := by
        simp [heq] at hc
        simpa using hc
      intro t ht hid
      simp only [List.eraseIdx_zero, List.tail_cons] at ht
      have hmem : taskID ∈ ts.map Task.ID := by
        rw [← hid]; exact List.mem_map_of_mem _ ht
      exact (List.count_eq_zero.mp h0) hmem
    · rename_i hne
      simp only [Option.map_eq_some'] at h
      obtain ⟨j, hj, rfl⟩ := h
      have hc2 : (ts.map Task.ID).count taskID ≤ 1 := by omega
      intro t ht
      rw [List.eraseIdx_cons_succ] at ht
      rcases List.mem_cons.mp ht with rfl | ht
      · exact hne
      · exact ih hj hc2 t ht

theorem MarkTaskProcessed_twice_of_once (repo : InMemoryTaskRepository) (taskID : Int)
    (hc : (repo.tasks.map Task.ID).count taskID ≤ 1) :
    (repo.MarkTaskProcessed taskID).1.MarkTaskProcessed taskID
      = ((repo.MarkTaskProcessed taskID).1, [], none) := by
  apply MarkTaskProcessed_none
  apply rangeFind_of_forall_ne
  cases h : rangeFind repo.tasks taskID with
  | none =>
    rw [MarkTaskProcessed_none repo taskID h]
    exact rangeFind_none h
  | some i =>
    rw [tasks_MarkTaskProcessed_some repo taskID i h]
    exact rangeFind_some_erase_once h hc

theorem markAll_ids_nodup (ids : List Int) :
    ((markAll NewInMemoryTaskRepository ids).tasks.map Task.ID).Nodup := by
  have hsub := (tasks_markAll_sublist ids NewInMemoryTaskRepository).map Task.ID
  exact hsub.nodup (by decide)

/-- C8: MarkTaskProcessed never returns an error, on any store and for any id.  On
every store the program can hold, that is the initial store of
NewInMemoryTaskRepository after any sequence of MarkTaskProcessed calls, and
more generally on every store in which at most one pending task carries the
id, a second MarkTaskProcessed(id) leaves the store (backing array and
length) exactly as the first call left it and logs nothing. -/
theorem MarkTaskProcessed_idempotent :
    (∀ (repo : InMemoryTaskRepository) (taskID : Int),
        (repo.MarkTaskProcessed taskID).2.2 = none
          ∧ ((repo.MarkTaskProcessed taskID).1.MarkTaskProcessed taskID).2.2 = none)
      ∧ (∀ (ids : List Int) (taskID : Int),
          (((markAll NewInMemoryTaskRepository ids).MarkTaskProcessed taskID).1.MarkTaskProcessed
              taskID).1
            = ((markAll NewInMemoryTaskRepository ids).MarkTaskProcessed taskID).1
          ∧ (((markAll NewInMemoryTaskRepository ids).MarkTaskProcessed
                taskID).1.MarkTaskProcessed taskID).2.1 = [])
      ∧ (∀ (repo : InMemoryTaskRepository) (taskID : Int),
          (repo.tasks.map Task.ID).count taskID ≤ 1 →
          ((repo.MarkTaskProcessed taskID).1.MarkTaskProcessed taskID).1
              = (repo.MarkTaskProcessed taskID).1
            ∧ ((repo.MarkTaskProcessed taskID).1.MarkTaskProcessed taskID).2.1 = []) := by
  refine ⟨fun repo taskID => ⟨MarkTaskProcessed_err _ _, MarkTaskProcessed_err _ _⟩, ?_, ?_⟩
  · intro ids taskID
    have hc := List.nodup_iff_count_le_one.mp (markAll_ids_nodup ids) taskID
    rw [MarkTaskProcessed_twice_of_once _ taskID hc]
    exact ⟨rfl, rfl⟩
  · intro repo taskID hc
    rw [MarkTaskProcessed_twice_of_once _ taskID hc]
    exact ⟨rfl, rfl⟩

/-- C8 on the initial store after MarkTaskProcessed(1), with id 3 (pending) and with
id 1 (already gone): the second call changes nothing. -/
theorem MarkTaskProcessed_idempotent_witness :
    ((NewInMemoryTaskRepository.tasks.map Task.ID).count 3 ≤ 1
        ∧ (((NewInMemoryTaskRepository.MarkTaskProcessed 3).1.MarkTaskProcessed 3).1.tasks).map
            Task.ID = [1, 2]
        ∧ ((NewInMemoryTaskRepository.MarkTaskProcessed 3).1.MarkTaskProcessed 3).1
            = (NewInMemoryTaskRepository.MarkTaskProcessed 3).1)
      ∧ (((markAll NewInMemoryTaskRepository [1]).MarkTaskProcessed 1).1.MarkTaskProcessed 1).1
          = ((markAll NewInMemoryTaskRepository [1]).MarkTaskProcessed 1).1 :=
  ⟨⟨by decide, by decide,
      (MarkTaskProcessed_idempotent.2.2 NewInMemoryTaskRepository 3 (by decide)).1⟩,
    (MarkTaskProcessed_idempotent.2.1 [1] 1).1⟩

open ProcessTasks

/-! ## Lemmas on the dispatch loop -/

theorem length_eraseIdx_of_get {α : Type} {l : List α} {k : Nat} {a : α}
    (h : l[k]? = some a) : (l.eraseIdx k).length + 1 = l.length := by
  have hk : k < l.length := (List.getElem?_eq_some_iff.mp h).1
  rw [List.length_eraseIdx]
  simp [hk]
  omega

theorem perm_cons_eraseIdx_of_get {α : Type} {l : List α} {k : Nat} {a : α}
    (h : l[k]? = some a) : l.Perm (a :: l.eraseIdx k) := by
  induction l generalizing k with
  | nil => simp at h
  | cons x xs ih =>
    cases k with
    | zero =>
      simp at h
      subst h
      simp
    | succ k =>
      simp at h
      simp only [List.eraseIdx_cons_succ]
      exact ((ih h).cons x).trans (List.Perm.swap a x _)

theorem step_semInv {σ : Type} (repo : TaskRepository σ) (maxWorkers : Nat)
    {s s1 : RunState σ} {e : Event} (hs : SemInv maxWorkers s)
    (h : step repo maxWorkers s e = some s1) : SemInv maxWorkers s1 := by
  obtain ⟨h1, h2⟩ := hs
  cases e with
  | iter =>
    simp only [step] at h
    split at h
    · cases h; exact ⟨h1, h2⟩
    · cases h
  | launch =>
    simp only [step] at h
    split at h
    · split at h
      · rename_i hg
        cases h
        refine ⟨?_, ?_⟩
        · simp; omega
        · simp; omega
      · cases h
    · cases h
  | work k =>
    simp only [step] at h
    split at h
    · rename_i t ht
      cases h
      have := length_eraseIdx_of_get ht
      refine ⟨?_, ?_⟩
      · simp; omega
      · simpa using h2
    · cases h
  | mark k =>
    simp only [step] at h
    split at h
    · rename_i t ht
      cases h
      have := length_eraseIdx_of_get ht
      refine ⟨?_, ?_⟩
      · simp; omega
      · simpa using h2
    · cases h
  | release k =>
    simp only [step] at h
    split at h
    · rename_i t ht
      split at h
      · cases h
        have := length_eraseIdx_of_get ht
        refine ⟨?_, ?_⟩
        · simp; omega
        · simp; omega
      · cases h
    · cases h
  | done =>
    simp only [step] at h
    split at h
    · cases h; exact ⟨h1, h2⟩
    · cases h
  | ret =>
    simp only [step] at h
    split at h
    · cases h; exact ⟨h1, h2⟩
    · cases h

theorem start_semInv {σ : Type} (repo : TaskRepository σ) (maxWorkers : Nat) (s0 : σ) :
    SemInv maxWorkers (start repo s0) := by
  unfold start
  split <;> exact ⟨rfl, Nat.zero_le _⟩

theorem exec_semInv {σ : Type} (repo : TaskRepository σ) (maxWorkers : Nat)
    (sched : List Event) {s s1 : RunState σ} (hs : SemInv maxWorkers s)
    (h : exec repo maxWorkers s sched = some s1) : SemInv maxWorkers s1 := by
  induction sched generalizing s with
  | nil => simp only [exec] at h; cases h; exact hs
  | cons e es ih =>
    simp only [exec] at h
    split at h
    · rename_i s2 h2
      exact ih (step_semInv repo maxWorkers hs h2) h
    · cases h


theorem step_inv {σ : Type} (repo : TaskRepository σ) (maxWorkers : Nat) (b : Batch σ)
    {s s1 : RunState σ} {e : Event} (hs : Inv b s)
    (h : step repo maxWorkers s e = some s1) : Inv b s1 := by
  obtain ⟨hb, hn, hwg, htl, htr, hp, hr⟩ := hs
  cases e with
  | iter =>
    simp only [step] at h
    split at h
    · rename_i hg
      obtain ⟨hg1, hg2, hg3⟩ := hg
      cases h
      have hcur : s.cur = none := by simpa using hg2
      rw [hb] at hg3
      refine ⟨hb, by simpa using hg3, ?_, by simp [htl], ?_, ?_, Or.inl (by simpa using hg1)⟩
      · simp [hcur] at hwg ⊢; omega
      · intro k hk
        simp only [List.length_append, List.length_singleton] at hk
        by_cases hk2 : k < s.taken.length
        · obtain ⟨st, hst⟩ := htr k hk2
          exact ⟨st, by simp [List.getElem?_append_left hk2, hst]⟩
        · have hk3 : k = s.taken.length := by omega
          refine ⟨s.store, ?_⟩
          subst hk3
          simp [hb, htl]
      · simp only [hcur, Option.toList_none, List.map_nil, List.append_nil] at hp
        simpa using hp.append_right [(s.batch.read s.store s.next).ID]
    · cases h
  | launch =>
    simp only [step] at h
    split at h
    · rename_i t ht
      split at h
      · rename_i hg
        cases h
        refine ⟨hb, hn, ?_, htl, htr, ?_, Or.inl (by simpa using hg.1)⟩
        · simp [ht] at hwg ⊢; omega
        · simpa [ht] using hp
      · cases h
    · cases h
  | work k =>
    simp only [step] at h
    split at h
    · rename_i t ht
      cases h
      have hlen := length_eraseIdx_of_get ht
      have hperm := perm_cons_eraseIdx_of_get ht
      refine ⟨hb, hn, ?_, htl, htr, ?_, ?_⟩
      · simp at hwg ⊢; omega
      · refine hp.trans ?_
        refine List.Perm.append_right _ ?_
        have h2 : (s.launched.map Task.ID).Perm
            (t.ID :: (s.launched.eraseIdx k).map Task.ID) := by
          simpa using hperm.map Task.ID
        have h3 := h2.append_left (s.calls ++ s.running.map Task.ID)
        simpa using h3
      · rcases hr with hr | ⟨_, hc, _, hw⟩
        · exact Or.inl hr
        · exfalso
          have : s.launched.length = 0 := by simp [hc] at hwg; omega
          omega
    · cases h
  | mark k =>
    simp only [step] at h
    split at h
    · rename_i t ht
      cases h
      have hlen := length_eraseIdx_of_get ht
      have hperm := perm_cons_eraseIdx_of_get ht
      refine ⟨hb, hn, ?_, htl, htr, ?_, ?_⟩
      · simp at hwg ⊢; omega
      · refine hp.trans ?_
        refine List.Perm.append_right _ ?_
        refine List.Perm.append_right _ ?_
        have h2 : (s.running.map Task.ID).Perm (t.ID :: (s.running.eraseIdx k).map Task.ID) := by
          simpa using hperm.map Task.ID
        simpa using h2.append_left s.calls
      · rcases hr with hr | ⟨_, hc, _, hw⟩
        · exact Or.inl hr
        · exfalso
          have : s.running.length = 0 := by simp [hc] at hwg; omega
          omega
    · cases h
  | release k =>
    simp only [step] at h
    split at h
    · rename_i t ht
      split at h
      · cases h
        have hlen := length_eraseIdx_of_get ht
        refine ⟨hb, hn, ?_, htl, htr, hp, ?_⟩
        · simp at hwg ⊢; omega
        · rcases hr with hr | ⟨_, hc, _, hw⟩
          · exact Or.inl hr
          · exfalso
            have : s.marked.length = 0 := by simp [hc] at hwg; omega
            omega
      · cases h
    · cases h
  | done =>
    simp only [step] at h
    split at h
    · rename_i hg
      cases h
      refine ⟨hb, hn, ?_, htl, htr, hp, ?_⟩
      · simp at hwg ⊢; omega
      · rcases hr with hr | ⟨_, _, _, hw⟩
        · exact Or.inl hr
        · exfalso; omega
    · cases h
  | ret =>
    simp only [step] at h
    split at h
    · rename_i hg
      obtain ⟨_, hg2, hg3, hg4⟩ := hg
      cases h
      rw [hb] at hg3
      exact ⟨hb, hn, hwg, htl, htr, hp, Or.inr ⟨rfl, by simpa using hg2, Nat.le_antisymm hn hg3, hg4⟩⟩
    · cases h

theorem exec_inv {σ : Type} (repo : TaskRepository σ) (maxWorkers : Nat) (b : Batch σ)
    (sched : List Event) {s s1 : RunState σ} (hs : Inv b s)
    (h : exec repo maxWorkers s sched = some s1) : Inv b s1 := by
  induction sched generalizing s with
  | nil => simp only [exec] at h; cases h; exact hs
  | cons e es ih =>
    simp only [exec] at h
    split at h
    · rename_i s2 h2
      exact ih (step_inv repo maxWorkers b hs h2) h
    · cases h

theorem start_ok {σ : Type} (repo : TaskRepository σ) (s0 st : σ) (b : Batch σ)
    (hget : repo.GetPendingTasks s0 = (st, Except.ok b)) :
    start repo s0 =
      { store := st, batch := b, next := 0, cur := none, sem := 0, launched := [],
        running := [],
        marked := [], exiting := 0, wg := 0, taken := [], calls := [],
        log := ["Found " ++ toString b.len ++ " tasks to process."], result := none } := by
  unfold start
  rw [hget]

theorem start_inv {σ : Type} (repo : TaskRepository σ) (s0 st : σ) (b : Batch σ)
    (hget : repo.GetPendingTasks s0 = (st, Except.ok b)) : Inv b (start repo s0) := by
  rw [start_ok repo s0 st b hget]
  exact ⟨rfl, Nat.zero_le _, rfl, rfl, by simp, by simp, Or.inl rfl⟩

theorem step_fuel {σ : Type} (repo : TaskRepository σ) (maxWorkers : Nat)
    {s s1 : RunState σ} {e : Event} (h : step repo maxWorkers s e = some s1) :
    fuel s1 + 1 = fuel s := by
  cases e with
  | iter =>
    simp only [step] at h
    split at h
    · rename_i hg
      obtain ⟨hg1, hg2, hg3⟩ := hg
      cases h
      have hcur : s.cur = none := by simpa using hg2
      simp only [fuel, hcur]
      simp
      omega
    · cases h
  | launch =>
    simp only [step] at h
    split at h
    · rename_i t ht
      split at h
      · cases h
        simp only [fuel, ht]
        simp
        omega
      · cases h
    · cases h
  | work k =>
    simp only [step] at h
    split at h
    · rename_i t ht
      cases h
      have hlen := length_eraseIdx_of_get ht
      simp only [fuel]
      simp
      omega
    · cases h
  | mark k =>
    simp only [step] at h
    split at h
    · rename_i t ht
      cases h
      have hlen := length_eraseIdx_of_get ht
      simp only [fuel]
      simp
      omega
    · cases h
  | release k =>
    simp only [step] at h
    split at h
    · rename_i t ht
      split at h
      · cases h
        have hlen := length_eraseIdx_of_get ht
        simp only [fuel]
        simp
        omega
      · cases h
    · cases h
  | done =>
    simp only [step] at h
    split at h
    · rename_i hg
      cases h
      simp only [fuel]
      omega
    · cases h
  | ret =>
    simp only [step] at h
    split at h
    · rename_i hg
      cases h
      simp only [fuel, hg.1]
      simp
    · cases h

theorem exec_fuel {σ : Type} (repo : TaskRepository σ) (maxWorkers : Nat)
    (sched : List Event) {s s1 : RunState σ}
    (h : exec repo maxWorkers s sched = some s1) : fuel s1 + sched.length = fuel s := by
  induction sched generalizing s with
  | nil => simp only [exec] at h; cases h; simp
  | cons e es ih =>
    simp only [exec] at h
    split at h
    · rename_i s2 h2
      have := ih h
      have := step_fuel repo maxWorkers h2
      simp only [List.length_cons]
      omega
    · cases h


theorem step_progress {σ : Type} (repo : TaskRepository σ) (maxWorkers : Nat) (b : Batch σ)
    (s : RunState σ) (hC : 1 ≤ maxWorkers) (hs : Inv b s) (hsem : SemInv maxWorkers s)
    (hr : s.result = none) : ∃ e s1, step repo maxWorkers s e = some s1 := by
  obtain ⟨hb, hn, hwg, htl, htr, hp, hres⟩ := hs
  obtain ⟨hse, hsl⟩ := hsem
  by_cases hex : 0 < s.exiting
  · have hw : 0 < s.wg := by omega
    exact ⟨Event.done, _, by simp only [step]; rw [if_pos ⟨hex, hw⟩]⟩
  cases hm : s.marked with
  | cons t ts =>
    have hsem0 : 0 < s.sem := by rw [hse, hm]; simp
    exact ⟨Event.release 0, _, by
      simp only [step, hm, List.getElem?_cons_zero]
      rw [if_pos hsem0]⟩
  | nil =>
    cases hrun : s.running with
    | cons t ts =>
      exact ⟨Event.mark 0, _, by simp only [step, hrun, List.getElem?_cons_zero]; rfl⟩
    | nil =>
      cases hl : s.launched with
      | cons t ts =>
        exact ⟨Event.work 0, _, by simp only [step, hl, List.getElem?_cons_zero]; rfl⟩
      | nil =>
        have hsem0 : s.sem < maxWorkers := by rw [hse, hm, hrun, hl]; simpa using hC
        cases hcur : s.cur with
        | some t =>
          exact ⟨Event.launch, _, by
            simp only [step, hcur]
            rw [if_pos ⟨by simp [hr], hsem0⟩]⟩
        | none =>
          by_cases hnext : s.next < s.batch.len
          · exact ⟨Event.iter, _, by
              simp only [step]
              rw [if_pos ⟨by simp [hr], by simp [hcur], hnext⟩]⟩
          · have hw : s.wg = 0 := by rw [hwg, hm, hrun, hl, hcur]; simp; omega
            exact ⟨Event.ret, _, by
              simp only [step]
              rw [if_pos ⟨by simp [hr], by simp [hcur], by omega, hw⟩]⟩

theorem exec_append {σ : Type} (repo : TaskRepository σ) (maxWorkers : Nat)
    (xs ys : List Event) (s : RunState σ) :
    exec repo maxWorkers s (xs ++ ys)
      = (exec repo maxWorkers s xs).bind (fun s1 => exec repo maxWorkers s1 ys) := by
  induction xs generalizing s with
  | nil => simp [exec]
  | cons e es ih =>
    simp only [List.cons_append, exec]
    cases step repo maxWorkers s e with
    | none => simp
    | some s2 => simpa using ih s2

theorem exec_complete {σ : Type} (repo : TaskRepository σ) (maxWorkers : Nat) (b : Batch σ)
    (hC : 1 ≤ maxWorkers) :
    ∀ (n : Nat) (s : RunState σ), fuel s = n → Inv b s → SemInv maxWorkers s →
      ∃ rest s1, exec repo maxWorkers s rest = some s1 ∧ s1.result.isSome = true := by
  intro n
  induction n using Nat.strong_induction_on with
  | _ n ih =>
    intro s hf hs hsem
    cases hr : s.result with
    | some r => exact ⟨[], s, rfl, by simp [hr]⟩
    | none =>
      obtain ⟨e, s1, hstep⟩ := step_progress repo maxWorkers b s hC hs hsem hr
      have hfu := step_fuel repo maxWorkers hstep
      obtain ⟨rest, s2, hex, hres⟩ :=
        ih (fuel s1) (by omega) s1 rfl (step_inv repo maxWorkers b hs hstep)
          (step_semInv repo maxWorkers hsem hstep)
      exact ⟨e :: rest, s2, by simp only [exec, hstep]; exact hex, hres⟩

theorem ProcessTasks_eq_some {σ : Type} (repo : TaskRepository σ) (maxProcs : Nat) (s0 : σ)
    (sched : List Event) (s : RunState σ) :
    ProcessTasks repo maxProcs s0 sched = some s
      ↔ exec repo (GetMaxParallelism maxProcs) (start repo s0) sched = some s
          ∧ s.result.isSome = true := by
  unfold ProcessTasks
  cases h : exec repo (GetMaxParallelism maxProcs) (start repo s0) sched with
  | none => simp
  | some s1 =>
    by_cases hr : s1.result.isSome = true
    · simp only [hr, if_true, Option.some.injEq]
      constructor
      · intro h1; subst h1; exact ⟨rfl, hr⟩
      · intro h1; exact h1.1
    · simp only [hr, Option.some.injEq]
      constructor
      · intro h1; cases h1
      · intro h1; rw [h1.1] at hr; exact absurd h1.2 hr

theorem inv_returned {σ : Type} {b : Batch σ} {s : RunState σ} (hs : Inv b s)
    (hr : s.result.isSome = true) :
    s.result = some none ∧ s.taken.length = b.len
      ∧ (s.taken.map Task.ID).Perm s.calls := by
  obtain ⟨hb, hn, hwg, htl, htr, hp, hres⟩ := hs
  rcases hres with hres | ⟨h1, hc, h3, h4⟩
  · rw [hres] at hr; cases hr
  · have hrun : s.running = [] := by
      apply List.eq_nil_of_length_eq_zero; omega
    have hl : s.launched = [] := by
      apply List.eq_nil_of_length_eq_zero; omega
    refine ⟨h1, by omega, ?_⟩
    simpa [hrun, hl, hc] using hp

theorem taken_of_snapshot {σ : Type} {b : Batch σ} {s : RunState σ} (hs : Inv b s)
    (hlen : s.taken.length = b.len) (hsnap : ∀ st1 st2 k, b.read st1 k = b.read st2 k)
    (st : σ) : s.taken = b.contents st := by
  apply List.ext_getElem?
  intro k
  by_cases hk : k < s.taken.length
  · obtain ⟨st1, h1⟩ := hs.taken_read k hk
    rw [h1, hsnap st1 st k]
    have hk2 : k < b.len := by omega
    simp [Batch.contents, List.getElem?_range hk2]
  · have h1 : s.taken[k]? = none := List.getElem?_eq_none (by omega)
    have h2 : (b.contents st)[k]? = none :=
      List.getElem?_eq_none (by simp [Batch.contents]; omega)
    rw [h1, h2]


theorem start_error {σ : Type} (repo : TaskRepository σ) (s0 st : σ) (err : GoError)
    (hget : repo.GetPendingTasks s0 = (st, Except.error err)) :
    start repo s0 =
      { store := st, batch := Batch.nil σ, next := 0, cur := none, sem := 0, launched := [],
        running := [],
        marked := [], exiting := 0, wg := 0, taken := [], calls := [],
        log := ["Error fetching tasks: " ++ err], result := some (some err) } := by
  unfold start
  rw [hget]


/-! ## ProcessTasks: claims -/

/-- C1 (what the code does): the batch read by the dispatch loop is the live slice of
the store, so a worker that ends while the loop still runs shifts the elements
the loop has not read yet.  On the initial store, when the first worker ends
before the loop reads the second element, MarkTaskProcessed is called with the
ids 1, 3, 3 and task 2 stays pending.  On a store of eleven tasks with eight
slots the loop has to wait for a slot after eight launches (the ninth launch
is not enabled), and when it always runs as far as it can the ids are
1 to 9, 11, 11 and task 10 stays pending.  Both runs return nil.  When every
worker of the initial store ends after the loop, the ids are 1, 2, 3 and
nothing stays pending. -/
theorem ProcessTasks_skips_pending_task :
    (ProcessTasks inMemory 1 NewInMemoryTaskRepository earlyFinish).map
        (fun s => (s.result, s.calls, s.store.tasks.map Task.ID))
        = some (some none, [1, 3, 3], [2])
      ∧ elevenStore.tasks.map Task.ID = [1, 2, 3, 4, 5, 6, 7, 8, 9, 10, 11]
      ∧ GetMaxParallelism 1 = 8
      ∧ exec inMemory 8 (start inMemory elevenStore)
          (times 8 [Event.iter, Event.launch] ++ [Event.iter, Event.launch]) = none
      ∧ (ProcessTasks inMemory 1 elevenStore blockedLoop).map
          (fun s => (s.result, s.calls, s.store.tasks.map Task.ID))
          = some (some none, [1, 2, 3, 4, 5, 6, 7, 8, 9, 11, 11], [10])
      ∧ (ProcessTasks inMemory 1 NewInMemoryTaskRepository lateFinish).map
          (fun s => (s.result, s.calls, s.store.tasks.map Task.ID))
          = some (some none, [1, 2, 3], []) := by
  refine ⟨by decide, by decide, by decide, ?_, by decide, by decide⟩
  cases h : exec inMemory 8 (start inMemory elevenStore)
      (times 8 [Event.iter, Event.launch] ++ [Event.iter, Event.launch]) with
  | none => rfl
  | some s =>
    exfalso
    have h2 : (exec inMemory 8 (start inMemory elevenStore)
      (times 8 [Event.iter, Event.launch] ++ [Event.iter, Event.launch])).isSome = false := by
      decide
    rw [h] at h2
    cases h2

/-- C2: in every state that the dispatch loop and its workers can reach, for every
repository, batch and capacity of sem, the workers that were launched and
have not yet reached their deferred release of the slot (just launched, at
work or past MarkTaskProcessed) are at most as many as the capacity, and
they are as many as the values buffered in sem. -/
theorem ProcessTasks_workers_bounded {σ : Type} (repo : TaskRepository σ) (maxWorkers : Nat)
    (s0 : σ) (sched : List Event) (s : RunState σ)
    (h : exec repo maxWorkers (start repo s0) sched = some s) :
    s.launched.length + s.running.length + s.marked.length ≤ maxWorkers
      ∧ s.sem = s.launched.length + s.running.length + s.marked.length := by
  have hinv := exec_semInv repo maxWorkers sched (start_semInv repo maxWorkers s0) h
  exact ⟨hinv.sem_eq ▸ hinv.sem_le, hinv.sem_eq⟩

/-- C2 on the initial store with two slots, after two workers were launched and are
at work and the loop head ran a third time: both slots are taken. -/
theorem ProcessTasks_workers_bounded_witness :
    ∃ s, exec inMemory 2 (start inMemory NewInMemoryTaskRepository)
          (times 2 [Event.iter, Event.launch, Event.work 0] ++ [Event.iter]) = some s
      ∧ s.running.length = 2
      ∧ s.launched.length + s.running.length + s.marked.length ≤ 2
      ∧ s.sem = s.launched.length + s.running.length + s.marked.length := by
  have hs : ((exec inMemory 2 (start inMemory NewInMemoryTaskRepository)
      (times 2 [Event.iter, Event.launch, Event.work 0] ++ [Event.iter])).map
        (fun s => s.running.length)) = some 2 := by decide
  cases h : exec inMemory 2 (start inMemory NewInMemoryTaskRepository)
      (times 2 [Event.iter, Event.launch, Event.work 0] ++ [Event.iter]) with
  | none => rw [h] at hs; cases hs
  | some s =>
    rw [h] at hs
    have h2 := ProcessTasks_workers_bounded inMemory 2 NewInMemoryTaskRepository _ s h
    exact ⟨s, rfl, by simpa using hs, h2.1, h2.2⟩

/-- Every run of ProcessTasks on a successful fetch is finite (at most six actions
per item and one), is never stuck before the return and can be completed;
a completed run returned nil, took one item at each index of the batch and
called MarkTaskProcessed once for each item taken, whatever the calls
returned. -/
theorem ProcessTasks_completes {σ : Type} (repo : TaskRepository σ) (maxProcs : Nat)
    (s0 st : σ) (b : Batch σ) (hprocs : 1 ≤ maxProcs)
    (hget : repo.GetPendingTasks s0 = (st, Except.ok b)) :
    (∀ sched s, exec repo (GetMaxParallelism maxProcs) (start repo s0) sched = some s →
        sched.length ≤ 6 * b.len + 1
          ∧ (s.result = none →
              ∃ e s1, step repo (GetMaxParallelism maxProcs) s e = some s1)
          ∧ ∃ rest s1, ProcessTasks repo maxProcs s0 (sched ++ rest) = some s1)
      ∧ (∀ sched s, ProcessTasks repo maxProcs s0 sched = some s →
          s.result = some none
            ∧ s.taken.length = b.len
            ∧ (∀ k, k < b.len → ∃ st1, s.taken[k]? = some (b.read st1 k))
            ∧ s.calls.Perm (s.taken.map Task.ID)
            ∧ ((∀ st1 st2 k, b.read st1 k = b.read st2 k) →
                s.calls.Perm ((b.contents st).map Task.ID))) := by
  have hC : 1 ≤ GetMaxParallelism maxProcs := by unfold GetMaxParallelism; omega
  have hi0 := start_inv repo s0 st b hget
  have hs0 := start_semInv repo (GetMaxParallelism maxProcs) s0
  have hf0 : fuel (start repo s0) = 6 * b.len + 1 := by
    rw [start_ok repo s0 st b hget]; simp [fuel]
  constructor
  · intro sched s h
    have hi := exec_inv repo _ b sched hi0 h
    have hs := exec_semInv repo _ sched hs0 h
    have hf := exec_fuel repo _ sched h
    refine ⟨by omega, fun hr => step_progress repo _ b s hC hi hs hr, ?_⟩
    obtain ⟨rest, s1, hex, hres⟩ := exec_complete repo _ b hC (fuel s) s rfl hi hs
    refine ⟨rest, s1, ?_⟩
    rw [ProcessTasks_eq_some, exec_append, h]
    exact ⟨hex, hres⟩
  · intro sched s h
    rw [ProcessTasks_eq_some] at h
    have hi := exec_inv repo _ b sched hi0 h.1
    obtain ⟨h1, h2, h3⟩ := inv_returned hi h.2
    refine ⟨h1, h2, ?_, h3.symm, ?_⟩
    · intro k hk
      exact hi.taken_read k (by omega)
    · intro hsnap
      rw [← taken_of_snapshot hi h2 hsnap st]
      exact h3.symm

/-- C3 (what the code does): on the initial in-memory store the fetch succeeds with the
items 1, 2, 3 and no MarkTaskProcessed call of this store ever returns an
error, yet when the first worker ends before the loop reads the second
element, the run returns nil after three MarkTaskProcessed calls none of which
is for item 2, which is still pending in the store: a sibling is skipped.
On a repository that hands out a copy of its list and fails for id 2, the run
returns nil, MarkTaskProcessed was called for 1, 2 and 3, and only item 2 is
still pending: the error of one item neither cancels the others nor is
returned. -/
theorem ProcessTasks_skips_sibling :
    NewInMemoryTaskRepository.GetPendingTasks.2 = none
      ∧ (NewInMemoryTaskRepository.GetPendingTasks.1.contents NewInMemoryTaskRepository).map
          Task.ID = [1, 2, 3]
      ∧ (∀ (repo : InMemoryTaskRepository) (taskID : Int),
          (inMemory.MarkTaskProcessed repo taskID).2.2 = none)
      ∧ (ProcessTasks inMemory 1 NewInMemoryTaskRepository earlyFinish).map
          (fun s => (s.result, s.calls.length, decide (2 ∈ s.calls),
            s.store.tasks.map Task.ID))
          = some (some none, 3, false, [2])
      ∧ ((failingRepo [2]).MarkTaskProcessed NewInMemoryTaskRepository.arr 2).2.2
          = some "store unavailable"
      ∧ (ProcessTasks (failingRepo [2]) 1 NewInMemoryTaskRepository.arr lateFinish).map
          (fun s => (s.result, s.calls, s.store.map Task.ID))
          = some (some none, [1, 2, 3], [2]) := by
  refine ⟨rfl, by decide, fun repo taskID => MarkTaskProcessed_err repo taskID, by decide,
    by decide, by decide⟩

/-- C4: when GetPendingTasks returns an error, ProcessTasks returns that error at once:
no action of the loop or of a worker is possible, so no item is taken and
MarkTaskProcessed is not called; and Execute around it returns, with the
failure in its log. -/
theorem ProcessTasks_fetch_error {σ : Type} (repo : TaskRepository σ) (maxProcs : Nat)
    (s0 st : σ) (err : GoError) (duration : String)
    (hget : repo.GetPendingTasks s0 = (st, Except.error err)) :
    (∀ sched s, ProcessTasks repo maxProcs s0 sched = some s →
        sched = [] ∧ s.result = some (some err) ∧ s.calls = [] ∧ s.taken = []
          ∧ s.running = [] ∧ s.store = st ∧ s.launched = [] ∧ s.marked = [])
      ∧ (∃ s, ProcessTasks repo maxProcs s0 [] = some s)
      ∧ Execute repo maxProcs s0 [] duration
          = some (st, ["Task UseCase Execution Started", "Error fetching tasks: " ++ err,
              "Error executing task use case: " ++ err,
              "Task UseCase Execution Completed in " ++ duration]) := by
  have hstart := start_error repo s0 st err hget
  have hnil : ProcessTasks repo maxProcs s0 [] = some (start repo s0) := by
    rw [ProcessTasks_eq_some]
    exact ⟨rfl, by rw [hstart]; rfl⟩
  refine ⟨?_, ⟨_, hnil⟩, ?_⟩
  · intro sched s h
    rw [ProcessTasks_eq_some] at h
    cases sched with
    | nil =>
      have h1 : start repo s0 = s := by simpa [exec] using h.1
      subst h1
      rw [hstart]
      exact ⟨rfl, rfl, rfl, rfl, rfl, rfl, rfl, rfl⟩
    | cons e es =>
      exfalso
      have h1 := h.1
      simp only [exec] at h1
      have hno : step repo (GetMaxParallelism maxProcs) (start repo s0) e = none := by
        rw [hstart]
        cases e <;> simp [step, Batch.nil]
      rw [hno] at h1
      cases h1
  · unfold Execute
    rw [hnil, hstart]
    rfl

/-- C4 on a repository whose fetch fails with the error db down. -/
theorem ProcessTasks_fetch_error_witness :
    (brokenRepo "db down").GetPendingTasks () = ((), Except.error "db down")
      ∧ Execute (brokenRepo "db down") 1 () [] "3ms"
          = some ((), ["Task UseCase Execution Started", "Error fetching tasks: " ++ "db down",
              "Error executing task use case: " ++ "db down",
              "Task UseCase Execution Completed in " ++ "3ms"]) :=
  ⟨rfl, (ProcessTasks_fetch_error (brokenRepo "db down") 1 () () "db down" "3ms" rfl).2.2⟩

/-! ## scheduler and config: claims -/

/-- C5: for every job name and every task function, the function that RegisterTask hands
to the scheduler returns whether the task returns or panics; when the task
panics with a value, the log of the call ends with the panic line, which
carries the name of the job and the value; when it returns, the log ends
with the completion line. -/
theorem RegisterTask_job_recovers (name : String) (task : TaskFunc) :
    (RegisterTask.job name task).outcome = Completion.returned
      ∧ (∀ r, (task ()).outcome = Completion.panicked r →
          (RegisterTask.job name task).log
            = ["Task [" ++ name ++ "] started"] ++ (task ()).log
                ++ ["Task [" ++ name ++ "] encountered panic: " ++ r])
      ∧ ((task ()).outcome = Completion.returned →
          (RegisterTask.job name task).log
            = ["Task [" ++ name ++ "] started"] ++ (task ()).log
                ++ ["Task [" ++ name ++ "] completed"]) := by
  unfold RegisterTask.job
  cases h : (task ()).outcome with
  | returned => simp [recover]
  | panicked r => simp [recover]

/-- C5 on a task that panics with the value boom under the job name MyScheduler. -/
theorem RegisterTask_job_recovers_witness :
    (panickingTask ()).outcome = Completion.panicked "boom"
      ∧ (RegisterTask.job "MyScheduler" panickingTask).outcome = Completion.returned
      ∧ (RegisterTask.job "MyScheduler" panickingTask).log
          = ["Task [" ++ "MyScheduler" ++ "] started"] ++ (panickingTask ()).log
              ++ ["Task [" ++ "MyScheduler" ++ "] encountered panic: " ++ "boom"] :=
  ⟨rfl, (RegisterTask_job_recovers "MyScheduler" panickingTask).1,
    (RegisterTask_job_recovers "MyScheduler" panickingTask).2.1 "boom" rfl⟩

/-- C10 as stated fails: with the variable set to 0, to -5 or to 9223372037, LoadConfig
returns nil and the interval is zero or negative (the last by 64-bit
overflow of the product). -/
theorem LoadConfig_nonpositive_interval :
    (LoadConfig none (envWith "0") zeroConfig).2 = none
      ∧ (LoadConfig none (envWith "0") zeroConfig).1.Scheduler.Interval = 0
      ∧ (LoadConfig none (envWith "-5") zeroConfig).2 = none
      ∧ (LoadConfig none (envWith "-5") zeroConfig).1.Scheduler.Interval = -5000000000
      ∧ (LoadConfig none (envWith "9223372037") zeroConfig).2 = none
      ∧ (LoadConfig none (envWith "9223372037") zeroConfig).1.Scheduler.Interval
          = -9223372036709551616 := by
  decide

/-- C10 (amended): LoadConfig rejects no interval, RegisterTask does.  LoadConfig
returns exactly the error of godotenv.Load, whatever the environment holds,
and leaves AppConfig as it was on an error.  When it returns nil the interval
is the result of getEnvAsInt times one second, wrapped to 64 bits: 10 seconds
when the variable is unset, empty or not accepted by strconv.Atoi, n seconds
and positive for an integer n from 1 to 9223372036, n seconds and not
positive for an integer n from -9223372036 to 0.  RegisterTask passes the
interval to NewJob of the scheduling library: it logs nothing when NewJob
accepts, and when NewJob returns an error it logs the failure with the job
name; so with a library that refuses every interval that is not positive
and registers nothing then, such an interval out of LoadConfig leaves the
library without the job, before the trigger is started. -/
theorem LoadConfig_interval :
    (∀ (dotenvErr : Option GoError) (env : String → String) (AppConfig : Config),
        (LoadConfig dotenvErr env AppConfig).2 = dotenvErr)
      ∧ (∀ (err : GoError) (env : String → String) (AppConfig : Config),
          (LoadConfig (some err) env AppConfig).1 = AppConfig)
      ∧ (∀ (env : String → String) (AppConfig : Config),
          (LoadConfig none env AppConfig).1.Scheduler.Interval
              = wrap64 ((getEnvAsInt env intervalKey 10).1 * Second)
            ∧ ((env intervalKey = "" ∨ Atoi (env intervalKey) = none) →
                (LoadConfig none env AppConfig).1.Scheduler.Interval = 10 * Second)
            ∧ (∀ n : Int, env intervalKey ≠ "" → Atoi (env intervalKey) = some n →
                (1 ≤ n → n ≤ 9223372036 →
                  (LoadConfig none env AppConfig).1.Scheduler.Interval = n * Second
                    ∧ 0 < (LoadConfig none env AppConfig).1.Scheduler.Interval)
                ∧ (-9223372036 ≤ n → n ≤ 0 →
                  (LoadConfig none env AppConfig).1.Scheduler.Interval = n * Second
                    ∧ (LoadConfig none env AppConfig).1.Scheduler.Interval ≤ 0)))
      ∧ (∀ (κ : Type) (cron : Cron κ) (s : κ) (name : String) (interval : Int)
            (task : TaskFunc),
          ((cron.NewJob s interval (fun _ => RegisterTask.job name task)).2 = none →
              RegisterTask cron s name interval task
                = ((cron.NewJob s interval (fun _ => RegisterTask.job name task)).1, []))
            ∧ (∀ err, (cron.NewJob s interval (fun _ => RegisterTask.job name task)).2
                  = some err →
                RegisterTask cron s name interval task
                  = ((cron.NewJob s interval (fun _ => RegisterTask.job name task)).1,
                      ["Failed to register task [" ++ name ++ "]: " ++ err])))
      ∧ (∀ (κ : Type) (cron : Cron κ),
          (∀ s d f, d ≤ 0 → (cron.NewJob s d f).1 = s ∧ (cron.NewJob s d f).2 ≠ none) →
          ∀ (env : String → String) (AppConfig : Config) (s : κ) (name : String)
            (task : TaskFunc),
            (LoadConfig none env AppConfig).1.Scheduler.Interval ≤ 0 →
            ∃ err,
              RegisterTask cron s name (LoadConfig none env AppConfig).1.Scheduler.Interval task
                = (s, ["Failed to register task [" ++ name ++ "]: " ++ err])) := by
  have hreg : ∀ (κ : Type) (cron : Cron κ) (s : κ) (name : String) (interval : Int)
      (task : TaskFunc),
      ((cron.NewJob s interval (fun _ => RegisterTask.job name task)).2 = none →
          RegisterTask cron s name interval task
            = ((cron.NewJob s interval (fun _ => RegisterTask.job name task)).1, []))
        ∧ (∀ err, (cron.NewJob s interval (fun _ => RegisterTask.job name task)).2
              = some err →
            RegisterTask cron s name interval task
              = ((cron.NewJob s interval (fun _ => RegisterTask.job name task)).1,
                  ["Failed to register task [" ++ name ++ "]: " ++ err])) := by
    intro κ cron s name interval task
    unfold RegisterTask
    rcases hj : cron.NewJob s interval (fun _ => RegisterTask.job name task) with ⟨s1, e⟩
    cases e with
    | none => simp
    | some err => simp
  refine ⟨?_, ?_, ?_, hreg, ?_⟩
  · intro dotenvErr env AppConfig
    cases dotenvErr <;> rfl
  · intro err env AppConfig
    rfl
  · intro env AppConfig
    have hI : (LoadConfig none env AppConfig).1.Scheduler.Interval
        = wrap64 ((getEnvAsInt env intervalKey 10).1 * Second) := rfl
    rw [hI]
    refine ⟨rfl, ?_, ?_⟩
    · intro hv
      have hd : (getEnvAsInt env intervalKey 10).1 = 10 := by
        unfold getEnvAsInt
        rcases hv with hv | hv
        · simp [hv]
        · simp [hv]
      rw [hd]
      decide
    · intro n hne hn
      have hd : (getEnvAsInt env intervalKey 10).1 = n := by
        unfold getEnvAsInt
        simp [hne, hn]
      rw [hd]
      constructor
      · intro h1 h2
        have hw : wrap64 (n * Second) = n * Second := by
          unfold wrap64 Second
          norm_num
          omega
        rw [hw]
        refine ⟨rfl, ?_⟩
        unfold Second
        omega
      · intro h1 h2
        have hw : wrap64 (n * Second) = n * Second := by
          unfold wrap64 Second
          norm_num
          omega
        rw [hw]
        refine ⟨rfl, ?_⟩
        unfold Second
        omega
  · intro κ cron hrefuse env AppConfig s name task hle
    obtain ⟨h1, h2⟩ := hrefuse s (LoadConfig none env AppConfig).1.Scheduler.Interval
      (fun _ => RegisterTask.job name task) hle
    obtain ⟨err, herr⟩ := Option.ne_none_iff_exists'.mp h2
    refine ⟨err, ?_⟩
    rw [(hreg κ cron s name _ task).2 err herr, h1]

/-- C10 (amended) with the variable set to 30 and to 0: the interval is 30 seconds in
the first case; in the second it is zero, LoadConfig returns nil, and
RegisterTask on a library that refuses such intervals registers no job and
logs the failure. -/
theorem LoadConfig_interval_witness :
    (envWith "30" intervalKey ≠ ""
        ∧ Atoi (envWith "30" intervalKey) = some 30
        ∧ (LoadConfig none (envWith "30") zeroConfig).1.Scheduler.Interval = 30 * Second
        ∧ 0 < (LoadConfig none (envWith "30") zeroConfig).1.Scheduler.Interval)
      ∧ (LoadConfig none (envWith "0") zeroConfig).2 = none
      ∧ (LoadConfig none (envWith "0") zeroConfig).1.Scheduler.Interval ≤ 0
      ∧ (∀ s d f, d ≤ 0 →
          (refusingCron.NewJob s d f).1 = s ∧ (refusingCron.NewJob s d f).2 ≠ none)
      ∧ ∃ err,
          RegisterTask refusingCron [] "MyScheduler"
              (LoadConfig none (envWith "0") zeroConfig).1.Scheduler.Interval idleTask
            = ([], ["Failed to register task [" ++ "MyScheduler" ++ "]: " ++ err]) :=
  ⟨⟨by decide, by decide,
      ((LoadConfig_interval.2.2.1 (envWith "30") zeroConfig).2.2 30 (by decide) (by decide)).1
        (by decide) (by decide)⟩,
    LoadConfig_interval.1 none (envWith "0") zeroConfig,
    by decide,
    fun s d f hd => by simp [refusingCron, hd],
    LoadConfig_interval.2.2.2.2 (List Int) refusingCron
      (fun s d f hd => by simp [refusingCron, hd]) (envWith "0") zeroConfig [] "MyScheduler"
      idleTask (by decide)⟩

end Sch
